import Mathlib

/-!
Verification development for the network client of this repository
(`client.py`).  The wire protocol, the receive loop, the facade
operations and the local history store are embedded shallowly:

* bytes are modelled as natural numbers (`Nat`), byte strings as lists
  (`Bytes`); ASCII text such as header names is converted with `strB`;
* the socket is modelled as the list of chunks successive `recv` calls
  return; an exhausted chunk list models a closed connection;
* fallible code paths (exceptions caught by the `except` clauses of the
  receive loop) are modelled with `Option`: a `none` result of a decoding
  stage corresponds to the exception that makes the loop `break`.
-/

abbrev Bytes := List Nat

/-- Converts an ASCII string literal to its byte sequence. -/
def strB (s : String) : Bytes := s.data.map Char.toNat

/-- The byte sequence `"\r\n"`, the header line separator. -/
def crlfB : Bytes := [13, 10]

/-- The byte sequence `"\r\n\r\n"`, the header block terminator the
receive loop scans for (`while b"\r\n\r\n" not in data`). -/
def headerTerm : Bytes := [13, 10, 13, 10]

/-- The byte sequence `": "` used by `header.split(": ", 1)`. -/
def colonSpace : Bytes := [58, 32]

/-- ASCII lower-casing of one byte, as `str.lower()` acts on ASCII. -/
def lowerByte (b : Nat) : Nat := if 65 ≤ b ∧ b ≤ 90 then b + 32 else b

/-- ASCII lower-casing of a byte string (`key.lower()`). -/
def lowerB (s : Bytes) : Bytes := s.map lowerByte

/-- Splits `s` at the first occurrence of `pat`, returning the parts
before and after it; `none` when `pat` does not occur.  This is the
search underlying both `bytes.partition` and `str.split(sep, 1)`. -/
def splitFirst (pat : Bytes) : Bytes → Option (Bytes × Bytes)
  | [] => if pat.isPrefixOf ([] : Bytes) then some ([], []) else none
  | c :: rest =>
    if pat.isPrefixOf (c :: rest) then some ([], (c :: rest).drop pat.length)
    else (splitFirst pat rest).map (fun p => (c :: p.1, p.2))

/-- Whether `pat` occurs somewhere in `s` (the `in` test of
`while b"\r\n\r\n" not in data`). -/
def containsSeq (pat s : Bytes) : Bool := (splitFirst pat s).isSome

/-- Python's `bytes.partition`: the pair of the part before the first
occurrence of `pat` and the part after it; `(s, [])` when absent. -/
def partitionSeq (pat s : Bytes) : Bytes × Bytes :=
  match splitFirst pat s with
  | some p => p
  | none => (s, [])

/-- Fuelled worker for `splitOnSeq`; the fuel only bounds the recursion
depth and `s.length + 1` is always enough. -/
def splitSeqAux (pat : Bytes) : Nat → Bytes → List Bytes
  | 0, s => [s]
  | fuel + 1, s =>
    match splitFirst pat s with
    | none => [s]
    | some p => p.1 :: splitSeqAux pat fuel p.2

/-- Python's `str.split(sep)` for a non-empty separator (used as
`headers.decode().split("\r\n")`). -/
def splitOnSeq (pat s : Bytes) : List Bytes := splitSeqAux pat (s.length + 1) s

/-- Python's `str.split(" ")` on a one-byte separator, keeping empty
fields, as used on the status line. -/
def splitOnByte (b : Nat) : Bytes → List Bytes
  | [] => [[]]
  | c :: rest =>
    if c = b then [] :: splitOnByte b rest
    else
      match splitOnByte b rest with
      | [] => [[c]]
      | g :: gs => (c :: g) :: gs

/-- Lookup in an association list built in insertion order, with the
last binding winning, matching Python `dict` overwrite semantics. -/
def lookupLast {α : Type} (k : Bytes) : List (Bytes × α) → Option α
  | [] => none
  | (k', v) :: rest =>
    match lookupLast k rest with
    | some r => some r
    | none => if k' = k then some v else none

/-- Joins header lines with `"\r\n"` (the inverse of the header split). -/
def joinCRLF : List Bytes → Bytes
  | [] => []
  | [l] => l
  | l :: rest => l ++ crlfB ++ joinCRLF rest

/-- Fuelled decimal rendering worker; fuel `n + 1` is always enough. -/
def natDigitsAux : Nat → Nat → Bytes
  | 0, _ => []
  | fuel + 1, n =>
    if n < 10 then [48 + n] else natDigitsAux fuel (n / 10) ++ [48 + n % 10]

/-- Decimal rendering of a natural number as ASCII digit bytes,
modelling `str(len(body))`. -/
def natDigits (n : Nat) : Bytes := natDigitsAux (n + 1) n

/-- Accumulating decimal parse of digit bytes; `none` on a non-digit. -/
def parseDigitsAux (acc : Nat) : Bytes → Option Nat
  | [] => some acc
  | c :: rest =>
    if 48 ≤ c ∧ c ≤ 57 then parseDigitsAux (10 * acc + (c - 48)) rest else none

/-- Parse of a non-empty all-digit byte string. -/
def parseDigits : Bytes → Option Nat
  | [] => none
  | s => parseDigitsAux 0 s

/-- Python's `int(str)` on the token shapes this protocol produces:
an optional sign followed by decimal digits.  (Python additionally
tolerates surrounding whitespace and underscore grouping; those forms
never arise from `split(" ")` tokens of this protocol and are not
modelled.)  `none` models the `ValueError` that the receive loop's
`except` clause turns into a `break`. -/
def parsePyInt (s : Bytes) : Option Int :=
  match s with
  | [] => none
  | c :: rest =>
    if c = 45 then (parseDigits rest).map (fun n => -(n : Int))
    else if c = 43 then (parseDigits rest).map (fun n => (n : Int))
    else (parseDigits s).map (fun n => (n : Int))

/-!
The frame decoder of `Client._receive_loop` (`client.py` lines 87-118).

Each loop iteration starts from `data = b""`, reads chunks until the
header terminator appears, partitions at its first occurrence, parses
the header block, then keeps reading chunks until at least
`Content-Length` body bytes are buffered.  Any exception (malformed
header line, non-integer `Content-Length` or status token) is caught by
the `except` clause and terminates the loop; those paths yield `none`.
-/

/-- The first read loop: `while b"\r\n\r\n" not in data: data += recv()`.
Returns the accumulated data and the chunks not yet consumed; `none`
models `recv` returning `b""` (peer closed), which makes the loop
`return`. -/
def readUntilTerm (chunks : List Bytes) (data : Bytes) :
    Option (Bytes × List Bytes) :=
  if containsSeq headerTerm data then some (data, chunks)
  else
    match chunks with
    | [] => none
    | c :: cs => readUntilTerm cs (data ++ c)

/-- The body completion loop:
`while len(body) < content_length: body += recv(1024)`.
Note the exit condition: the loop stops as soon as the buffered body is
at least `content_length` bytes long and delivers everything buffered,
never truncating to `content_length`. -/
def readBody (contentLength : Int) (chunks : List Bytes) (body : Bytes) :
    Option (Bytes × List Bytes) :=
  if (body.length : Int) < contentLength then
    match chunks with
    | [] => none
    | c :: cs => readBody contentLength cs (body ++ c)
  else some (body, chunks)

/-- Folds header lines into the dictionary:
`key, value = header.split(": ", 1); headers_dict[key.lower()] = value`.
A line without `": "` raises `ValueError` (modelled `none`). -/
def parseHeaders : List Bytes → Option (List (Bytes × Bytes))
  | [] => some []
  | line :: rest =>
    match splitFirst colonSpace line with
    | none => none
    | some (k, v) => (parseHeaders rest).map (fun d => (lowerB k, v) :: d)

/-- `int(status_line.split(" ")[1])`: the second space-delimited token
of the status line parsed as an integer; `none` models the
`IndexError`/`ValueError` that breaks the loop. -/
def statusOf (statusLine : Bytes) : Option Int :=
  match (splitOnByte 32 statusLine).get? 1 with
  | none => none
  | some tok => parsePyInt tok

/-- One inbound frame as the receive loop materialises it before the
status token is parsed: the status line, the folded header dictionary
and the buffered body. -/
structure RawFrame where
  statusLine : Bytes
  headers : List (Bytes × Bytes)
  body : Bytes
deriving DecidableEq

/-- `headers_dict.get("content-length", 0)` followed by `int(...)`. -/
def contentLengthOf (headers : List (Bytes × Bytes)) : Option Int :=
  match lookupLast (strB "content-length") headers with
  | none => some 0
  | some v => parsePyInt v

/-- Decodes one frame from the chunk stream, mirroring lines 89-107 of
`client.py`: read until `b"\r\n\r\n"`, partition at its first
occurrence, split the header block on `b"\r\n"`, fold the header lines
into a dictionary, then read until `Content-Length` body bytes have
been buffered.  Returns the frame and the chunks left unconsumed. -/
def decodeRaw (chunks : List Bytes) : Option (RawFrame × List Bytes) :=
  match readUntilTerm chunks [] with
  | none => none
  | some (data, rest) =>
    match splitFirst headerTerm data with
    | none => none
    | some (hdr, body0) =>
      match splitOnSeq crlfB hdr with
      | [] => none
      | statusLine :: headerLines =>
        match parseHeaders headerLines with
        | none => none
        | some headers =>
          match contentLengthOf headers with
          | none => none
          | some clen =>
            (readBody clen rest body0).map
              (fun p => ({ statusLine := statusLine, headers := headers,
                           body := p.1 }, p.2))

/-- `headers_dict.get("type", "response")`. -/
def frameType (headers : List (Bytes × Bytes)) : Bytes :=
  (lookupLast (strB "type") headers).getD (strB "response")

/-- Where lines 110-115 of `client.py` send a decoded frame: to the
push handler, to the response queue, or nowhere (any status other than
200/201 falls through both branches of `if status == 200 or
status == 201` and the frame is discarded). -/
inductive Routed where
  | toPush (body : Bytes)
  | toQueue (status : Int) (body : Bytes)
  | dropped
deriving DecidableEq

/-- The routing decision of lines 110-115. -/
def routeFrame (status : Int) (headers : List (Bytes × Bytes)) (body : Bytes) :
    Routed :=
  if status = 200 ∨ status = 201 then
    if frameType headers = strB "message" then .toPush body
    else .toQueue status body
  else .dropped

/-- Fuelled worker for `receiveLoop`.  Each iteration consumes at least
one chunk (`decodeRaw_chunk_lt` below), so fuel `chunks.length + 1`
never runs out. -/
def receiveLoopAux : Nat → List Bytes → List (Int × Bytes) → List Bytes →
    List (Int × Bytes) × List Bytes
  | 0, _, q, p => (q, p)
  | fuel + 1, chunks, q, p =>
    match decodeRaw chunks with
    | none => (q, p)
    | some (rf, rest) =>
      match statusOf rf.statusLine with
      | none => (q, p)
      | some st =>
        match routeFrame st rf.headers rf.body with
        | .toPush b => receiveLoopAux fuel rest q (p ++ [b])
        | .toQueue s b => receiveLoopAux fuel rest (q ++ [(s, b)]) p
        | .dropped => receiveLoopAux fuel rest q p

/-- The receive loop of `Client._receive_loop` run over a finite chunk
stream: returns the final contents of `response_queue` (in FIFO order)
and the list of bodies handed to `handle_incoming_message`, starting
from the given queue and push history.  The loop stops when the stream
is exhausted or a decode stage raises. -/
def receiveLoop (chunks : List Bytes) (q : List (Int × Bytes))
    (p : List Bytes) : List (Int × Bytes) × List Bytes :=
  receiveLoopAux (chunks.length + 1) chunks q p

/-- `self.response_queue.get()`, the blocking wait of `send_request`:
pops the oldest queued response; `none` models a wait that blocks
forever because the queue stays empty. -/
def awaitResponse (q : List (Int × Bytes)) : Option (Int × Bytes) := q.head?

/-!
The request encoder of `Client.send_request` (`client.py` lines 59-73):
`f"{method} {url} HTTP/1.1\r\n"` followed by the single
`Content-Length` header, the blank line, and the raw body bytes.
-/

/-- The bytes `send_request` writes to the socket for a given method,
url (path plus any query string) and body. -/
def send_request_bytes (method url body : Bytes) : Bytes :=
  method ++ [32] ++ url ++ strB " HTTP/1.1" ++ crlfB ++
    strB "Content-Length" ++ colonSpace ++ natDigits body.length ++
    crlfB ++ crlfB ++ body

/-!
A model of `json.loads` / `json.dumps` on the flat JSON message
envelopes this protocol exchanges: a single object whose values are
null, booleans, integers or escape-free strings, or a single such
primitive.  Nested containers, floating point numbers, string escapes
and leading-zero rejection are outside the protocol's envelopes and are
not modelled; on such inputs this parser answers `none`.
-/

/-- A primitive JSON value. -/
inductive JPrim where
  | pnull
  | pbool (b : Bool)
  | pnum (n : Int)
  | pstr (s : Bytes)
deriving DecidableEq

/-- A top-level JSON document: a flat object or a bare primitive. -/
inductive JTop where
  | prim (p : JPrim)
  | obj (fields : List (Bytes × JPrim))
deriving DecidableEq

/-- Skips JSON whitespace. -/
def skipWs : Bytes → Bytes
  | [] => []
  | c :: rest =>
    if c = 32 ∨ c = 9 ∨ c = 10 ∨ c = 13 then skipWs rest else c :: rest

/-- Parses a JSON string after its opening quote: the content up to the
closing quote and the remainder.  Escapes are not modelled. -/
def parseJString : Bytes → Option (Bytes × Bytes)
  | [] => none
  | c :: rest =>
    if c = 34 then some ([], rest)
    else if c = 92 then none
    else (parseJString rest).map (fun p => (c :: p.1, p.2))

/-- Splits a byte string at its leading run of decimal digits. -/
def takeDigits : Bytes → Bytes × Bytes
  | [] => ([], [])
  | c :: rest =>
    if 48 ≤ c ∧ c ≤ 57 then
      match takeDigits rest with
      | (ds, r) => (c :: ds, r)
    else ([], c :: rest)

/-- Whether the remainder continues a number into float territory. -/
def startsFloat : Bytes → Bool
  | [] => false
  | c :: _ => c = 46 ∨ c = 101 ∨ c = 69

/-- Parses one primitive JSON value at the head of the input. -/
def parseJPrim (s : Bytes) : Option (JPrim × Bytes) :=
  match s with
  | [] => none
  | c :: rest =>
    if c = 34 then (parseJString rest).map (fun p => (.pstr p.1, p.2))
    else if c = 45 then
      match takeDigits rest with
      | ([], _) => none
      | (ds, r) =>
        if startsFloat r then none
        else (parseDigits ds).map (fun n => (.pnum (-(n : Int)), r))
    else if 48 ≤ c ∧ c ≤ 57 then
      match takeDigits (c :: rest) with
      | (ds, r) =>
        if startsFloat r then none
        else (parseDigits ds).map (fun n => (.pnum (n : Int), r))
    else if (strB "true").isPrefixOf s then some (.pbool true, s.drop 4)
    else if (strB "false").isPrefixOf s then some (.pbool false, s.drop 5)
    else if (strB "null").isPrefixOf s then some (.pnull, s.drop 4)
    else none

/-- Fuelled parse of the `"key": value` list inside an object, entered
after `{` or `,`; fuel `input length + 1` is always enough. -/
def parseFields : Nat → Bytes → Option (List (Bytes × JPrim) × Bytes)
  | 0, _ => none
  | fuel + 1, s =>
    match skipWs s with
    | 34 :: rest =>
      match parseJString rest with
      | none => none
      | some (key, rest1) =>
        match skipWs rest1 with
        | 58 :: rest2 =>
          match parseJPrim (skipWs rest2) with
          | none => none
          | some (v, rest3) =>
            match skipWs rest3 with
            | 44 :: rest4 =>
              (parseFields fuel rest4).map (fun p => ((key, v) :: p.1, p.2))
            | 125 :: rest4 => some ([(key, v)], rest4)
            | _ => none
        | _ => none
    | _ => none

/-- The model of `json.loads` (see the section comment above for its
scope).  `none` models the `ValueError` raised on malformed input. -/
def jsonParse (s : Bytes) : Option JTop :=
  match skipWs s with
  | 123 :: rest =>
    match skipWs rest with
    | 125 :: rest1 => if skipWs rest1 = [] then some (.obj []) else none
    | r =>
      match parseFields (s.length + 1) r with
      | none => none
      | some (fs, rest1) => if skipWs rest1 = [] then some (.obj fs) else none
  | s1 =>
    match parseJPrim s1 with
    | none => none
    | some (p, rest) => if skipWs rest = [] then some (.prim p) else none

/-- Python truthiness of a primitive JSON value (`if chat_id:`). -/
def jTruthy : JPrim → Bool
  | .pnull => false
  | .pbool b => b
  | .pnum n => n ≠ 0
  | .pstr s => s ≠ []

/-!
Facade state and operations (`client.py` lines 120-172, 175-194,
229-249, 350-365).
-/

/-- The session fields of the `Client` facade that `login` touches:
`self.user_id`, `self.user_login`, `self.username`.  `user_id` and
`username` hold whatever JSON value `response_data.get` produced. -/
structure Session where
  user_id : Option JPrim
  user_login : Option Bytes
  username : Option JPrim
deriving DecidableEq

/-- How a call to `Client.login` can end: blocked forever on the
response queue, terminated by an uncaught exception, or returning with
the resulting session state and return value. -/
inductive LoginResult where
  | blocked
  | raised
  | done (s : Session) (ret : Option JPrim)
deriving DecidableEq

/-- `Client.login` (lines 175-194) run against the frames the server
sends back on the connection: `send_request` blocks on
`response_queue.get()` over the receive loop's queue, then
`json.loads` the body; on status 200 the session fields are assigned
and the new username returned, otherwise the failure message is printed
and `None` returned.  `.get` on a non-object document raises. -/
def login (s : Session) (lg : Bytes) (chunks : List Bytes) : LoginResult :=
  match awaitResponse (receiveLoop chunks [] []).1 with
  | none => .blocked
  | some (status, response) =>
    match jsonParse response with
    | none => .raised
    | some data =>
      if status = 200 then
        match data with
        | .obj fields =>
          let s1 : Session :=
            { user_id := lookupLast (strB "id") fields
              user_login := some lg
              username := lookupLast (strB "username") fields }
          .done s1 s1.username
        | .prim _ => .raised
      else
        match data with
        | .obj _ => .done s none
        | .prim _ => .raised

/-- How a call to `Client.download` can end. -/
inductive DownloadResult where
  | blocked
  | raised
  | content (b : Bytes)
  | failed
deriving DecidableEq

/-- `Client.download` (lines 350-365) run against the frames the server
sends back: on status 200 the raw body is returned; otherwise the body
is parsed as JSON for its `message` field and `None` is returned. -/
def download (chunks : List Bytes) : DownloadResult :=
  match awaitResponse (receiveLoop chunks [] []).1 with
  | none => .blocked
  | some (status, body) =>
    if status = 200 then .content body
    else
      match jsonParse body with
      | none => .raised
      | some _ => .failed

/-- The observable outcome of `Client.handle_incoming_message`. -/
inductive PushOutcome where
  | saved (chatId : JPrim) (message : JTop)
  | ignored
  | errorLogged
deriving DecidableEq

/-- `Client.handle_incoming_message` (lines 120-137).  The whole body
runs inside `try ... except`, so every raising path — `json.loads` on a
malformed body, `.get` on a non-object document, and any later failure
while saving or displaying — is caught, logged and dropped; the
function itself never raises.  A missing or falsy `chat_id` skips the
message. -/
def handle_incoming_message (body : Bytes) : PushOutcome :=
  match jsonParse body with
  | none => .errorLogged
  | some (.prim _) => .errorLogged
  | some (.obj fields) =>
    match lookupLast (strB "chat_id") fields with
    | none => .ignored
    | some chatId =>
      if jTruthy chatId then .saved chatId (.obj fields) else .ignored

/-- The local `chat_history` directory: for each chat id, the message
list its JSON file holds, or `none` when no file exists.  The JSON
serialisation of the stored list is treated as faithful, so the store
is modelled directly at the list level and is polymorphic in the
message payload. -/
def ChatStore (α : Type) := Nat → Option (List α)

/-- `Client.save_message` (lines 139-158): read the existing log (empty
when the file is absent), append the message, write the log back. -/
def save_message {α : Type} (fs : ChatStore α) (chatId : Nat) (m : α) :
    ChatStore α :=
  let history := (fs chatId).getD []
  fun c => if c = chatId then some (history ++ [m]) else fs c

/-- `Client.load_chat_history` (lines 160-172): the stored log, or the
empty list when no file exists. -/
def load_chat_history {α : Type} (fs : ChatStore α) (chatId : Nat) : List α :=
  (fs chatId).getD []

/-- The state `Client.create_new_chat` can observe and mutate: the
session fields it reads, plus a heap of caller-owned member lists so
that in-place mutation of the caller's `members` argument is
observable.  The member element type is left abstract, as Python's
`in`/`append` work on any element type. -/
structure ChatClientState (α : Type) where
  user_id : α
  user_login : Option Bytes
  username : Option JPrim
  heap : Nat → List α

/-- `Client.create_new_chat` (lines 229-249) up to the point where the
request body is built: `members` is either a reference into the heap
(the caller's own list object) or absent.  When absent a fresh local
list is used; when present and `self.user_id` is not yet a member, the
id is appended to the caller's very list object.  Returns the updated
state and the members list placed in the request body. -/
def create_new_chat_members {α : Type} [DecidableEq α]
    (st : ChatClientState α) (membersRef : Option Nat) :
    ChatClientState α × List α :=
  match membersRef with
  | none =>
    let members : List α := []
    let members := if st.user_id ∈ members then members
                   else members ++ [st.user_id]
    (st, members)
  | some r =>
    let members := st.heap r
    if st.user_id ∈ members then (st, members)
    else
      let members1 := members ++ [st.user_id]
      ({ st with heap := fun r2 => if r2 = r then members1 else st.heap r2 },
       members1)

/-!
Frame constructors used by the theorems: the byte images of concrete
server frames as the tests of this development build them.
-/

/-- A wire frame: header lines joined by `"\r\n"`, the blank line, then
the body bytes. -/
def mkFrame (lines : List Bytes) (body : Bytes) : Bytes :=
  joinCRLF lines ++ (headerTerm ++ body)

/-- A `Content-Length` header line that matches the body exactly, as
the server produces for each frame. -/
def clLine (body : Bytes) : Bytes :=
  strB "Content-Length" ++ (colonSpace ++ natDigits body.length)

/-- A plain 200 response frame carrying `body`. -/
def mkResp (body : Bytes) : Bytes :=
  mkFrame [strB "HTTP/1.1 200 OK", clLine body] body

/-- A 200 push frame (`Type: message`) carrying `body`. -/
def mkPush (body : Bytes) : Bytes :=
  mkFrame [strB "HTTP/1.1 200 OK", strB "Type" ++ (colonSpace ++ strB "message"),
           clLine body] body

/-- A 200 push frame whose `Type` header name is spelled with the
casing `nm`. -/
def mkPushNamed (nm body : Bytes) : Bytes :=
  mkFrame [strB "HTTP/1.1 200 OK", nm ++ (colonSpace ++ strB "message"),
           clLine body] body

/-- The session of a freshly constructed client (`user_id`,
`user_login`, `username` all `None`). -/
def session0 : Session :=
  { user_id := none, user_login := none, username := none }

/-- A concrete client state for exercising `create_new_chat`. -/
def chatState0 : ChatClientState Nat :=
  { user_id := 7, user_login := none, username := none,
    heap := fun _ => [1, 2] }

/-!
Lemmas about the first-occurrence search `splitFirst`, establishing
that partitioning at the first `"\r\n\r\n"` splits a well-formed frame
into its header block and its body no matter what bytes the body
holds.
-/

theorem splitFirst_cons (pat : Bytes) (c : Nat) (rest : Bytes) :
    splitFirst pat (c :: rest) =
      if pat.isPrefixOf (c :: rest) then some ([], (c :: rest).drop pat.length)
      else (splitFirst pat rest).map (fun p => (c :: p.1, p.2)) := rfl

theorem splitFirst_cons_neg {pat : Bytes} {c : Nat} {rest : Bytes}
    (h : pat.isPrefixOf (c :: rest) = false) :
    splitFirst pat (c :: rest) =
      (splitFirst pat rest).map (fun p => (c :: p.1, p.2)) := by
  rw [splitFirst_cons, if_neg]
  simp [h]

theorem splitFirst_pos {pat s : Bytes} (h : pat.isPrefixOf s = true) :
    splitFirst pat s = some ([], s.drop pat.length) := by
  cases s with
  | nil =>
    have hp : pat = [] := by cases pat <;> simp [List.isPrefixOf] at h ⊢
    subst hp; simp [splitFirst]
  | cons c rest => rw [splitFirst_cons, if_pos h]

theorem splitFirst_append_self (pat b : Bytes) :
    splitFirst pat (pat ++ b) = some ([], b) := by
  have h : pat.isPrefixOf (pat ++ b) = true := by
    rw [List.isPrefixOf_iff_prefix]; exact List.prefix_append pat b
  rw [splitFirst_pos h, List.drop_left]

theorem splitFirst_skip {x : Nat} {ps l : Bytes} (s : Bytes) (h : x ∉ l) :
    splitFirst (x :: ps) (l ++ s) =
      (splitFirst (x :: ps) s).map (fun p => (l ++ p.1, p.2)) := by
  induction l with
  | nil =>
    rw [List.nil_append]
    cases splitFirst (x :: ps) s <;> rfl
  | cons c cs ih =>
    have hcx : x ≠ c := fun he => h (he ▸ List.mem_cons_self c cs)
    have hpre : (x :: ps).isPrefixOf (c :: (cs ++ s)) = false := by
      show (x == c && ps.isPrefixOf (cs ++ s)) = false
      simp [hcx]
    have hmem : x ∉ cs := fun hm => h (List.mem_cons_of_mem c hm)
    rw [List.cons_append, splitFirst_cons_neg hpre, ih hmem]
    cases splitFirst (x :: ps) s <;> rfl

theorem splitFirst_none_of_not_mem {x : Nat} {ps s : Bytes} (h : x ∉ s) :
    splitFirst (x :: ps) s = none := by
  induction s with
  | nil => simp [splitFirst]
  | cons c cs ih =>
    have hcx : x ≠ c := fun he => h (he ▸ List.mem_cons_self c cs)
    have hpre : (x :: ps).isPrefixOf (c :: cs) = false := by
      show (x == c && ps.isPrefixOf cs) = false
      simp [hcx]
    have hmem : x ∉ cs := fun hm => h (List.mem_cons_of_mem c hm)
    rw [splitFirst_cons_neg hpre, ih hmem]
    rfl

theorem splitFirst_some_eq {pat s a b : Bytes}
    (h : splitFirst pat s = some (a, b)) : s = a ++ pat ++ b := by
  induction s generalizing a b with
  | nil =>
    by_cases hp : pat.isPrefixOf ([] : Bytes) = true
    · have hpe : pat = [] := by cases pat <;> simp [List.isPrefixOf] at hp ⊢
      subst hpe; simp [splitFirst] at h
      simp [h.1, h.2]
    · simp [splitFirst, hp] at h
  | cons c rest ih =>
    by_cases hp : pat.isPrefixOf (c :: rest) = true
    · rw [splitFirst_pos hp] at h
      obtain ⟨t, ht⟩ := List.isPrefixOf_iff_prefix.mp hp
      injection h with h1
      injection h1 with ha hb
      subst ha
      rw [← ht, List.drop_left] at hb
      subst hb
      simp [← ht]
    · have hp2 : pat.isPrefixOf (c :: rest) = false := by
        cases hpp : pat.isPrefixOf (c :: rest) with
        | true => exact absurd hpp hp
        | false => rfl
      rw [splitFirst_cons_neg hp2] at h
      cases hrec : splitFirst pat rest with
      | none => rw [hrec] at h; simp at h
      | some p =>
        rw [hrec] at h
        obtain ⟨a1, b1⟩ := p
        injection h with h1
        injection h1 with ha hb
        subst ha; subst hb
        simp [ih hrec, List.append_assoc]

theorem splitFirst_length_lt {pat s a b : Bytes} (hpat : pat ≠ [])
    (h : splitFirst pat s = some (a, b)) : b.length < s.length := by
  have hs := splitFirst_some_eq h
  subst hs
  have hp : 0 < pat.length := List.length_pos.mpr hpat
  simp [List.length_append]
  omega

theorem splitFirst_term_skip {l : Bytes} (s : Bytes) (h : (13 : Nat) ∉ l) :
    splitFirst headerTerm (l ++ s) =
      (splitFirst headerTerm s).map (fun p => (l ++ p.1, p.2)) := by
  show splitFirst ((13 : Nat) :: [10, 13, 10]) (l ++ s) = _
  exact splitFirst_skip s h

theorem joinCRLF_cons_exists (l : Bytes) (rest : List Bytes) :
    ∃ t, joinCRLF (l :: rest) = l ++ t := by
  cases rest with
  | nil => exact ⟨[], by simp [joinCRLF]⟩
  | cons l2 ls => exact ⟨crlfB ++ joinCRLF (l2 :: ls), by simp [joinCRLF, List.append_assoc]⟩

theorem splitFirst_term_join (lines : List Bytes) (b : Bytes)
    (h : ∀ l ∈ lines, l ≠ [] ∧ (13 : Nat) ∉ l) :
    splitFirst headerTerm (joinCRLF lines ++ (headerTerm ++ b)) =
      some (joinCRLF lines, b) := by
  induction lines with
  | nil =>
    simp only [joinCRLF, List.nil_append]
    exact splitFirst_append_self headerTerm b
  | cons l rest ih =>
    have hl := h l (List.mem_cons_self l rest)
    cases rest with
    | nil =>
      simp only [joinCRLF]
      rw [splitFirst_term_skip _ hl.2, splitFirst_append_self]
      simp
    | cons l2 ls =>
      have hl2 := h l2 (List.mem_cons_of_mem l (List.mem_cons_self l2 ls))
      have ihr := ih (fun x hx => h x (List.mem_cons_of_mem l hx))
      obtain ⟨t, ht⟩ := joinCRLF_cons_exists l2 ls
      obtain ⟨c2, cs2, hc⟩ : ∃ c2 cs2, l2 = c2 :: cs2 := by
        cases l2 with
        | nil => exact absurd rfl hl2.1
        | cons a as => exact ⟨a, as, rfl⟩
      · have hc2 : c2 ≠ 13 := by
          intro he
          exact hl2.2 (by rw [hc, he]; exact List.mem_cons_self _ _)
        have hJ : joinCRLF (l2 :: ls) = c2 :: (cs2 ++ t) := by
          rw [ht, hc]; rfl
        have hjoin : joinCRLF (l :: l2 :: ls) = l ++ crlfB ++ joinCRLF (l2 :: ls) := rfl
        rw [hjoin]
        rw [List.append_assoc l crlfB]
        rw [List.append_assoc l (crlfB ++ joinCRLF (l2 :: ls)) (headerTerm ++ b)]
        rw [splitFirst_term_skip _ hl.2]
        have hmid : crlfB ++ joinCRLF (l2 :: ls) ++ (headerTerm ++ b)
            = 13 :: 10 :: (joinCRLF (l2 :: ls) ++ (headerTerm ++ b)) := by
          simp [crlfB, List.append_assoc]
        rw [hmid]
        have hpre1 : headerTerm.isPrefixOf
            (13 :: 10 :: (joinCRLF (l2 :: ls) ++ (headerTerm ++ b))) = false := by
          rw [hJ, List.cons_append]
          show (13 == 13 && (10 == 10 && (13 == c2 &&
            List.isPrefixOf [10] (cs2 ++ t ++ (headerTerm ++ b))))) = false
          simp [Ne.symm hc2]
        rw [splitFirst_cons_neg hpre1]
        have hpre2 : headerTerm.isPrefixOf
            (10 :: (joinCRLF (l2 :: ls) ++ (headerTerm ++ b))) = false := rfl
        rw [splitFirst_cons_neg hpre2]
        rw [ihr]
        simp [crlfB, List.append_assoc]

/-!
Lemmas about `splitOnSeq`: the fuel is irrelevant once it exceeds the
input length, and splitting a `"\r\n"`-joined list of CR-free lines
recovers exactly those lines.
-/

theorem splitSeqAux_congr {pat : Bytes} (hpat : pat ≠ []) :
    ∀ f f' s, s.length < f → s.length < f' →
      splitSeqAux pat f s = splitSeqAux pat f' s := by
  intro f
  induction f with
  | zero => intro f' s h; omega
  | succ fa ih =>
    intro f' s hf hf'
    cases f' with
    | zero => omega
    | succ fb =>
      show splitSeqAux pat (fa + 1) s = splitSeqAux pat (fb + 1) s
      cases hsp : splitFirst pat s with
      | none => simp only [splitSeqAux, hsp]
      | some p =>
        have hlt : p.2.length < s.length :=
          splitFirst_length_lt hpat (by rw [hsp])
        simp only [splitSeqAux, hsp]
        rw [ih fb p.2 (by omega) (by omega)]

theorem splitOnSeq_cons {pat s a b : Bytes} (hpat : pat ≠ [])
    (h : splitFirst pat s = some (a, b)) :
    splitOnSeq pat s = a :: splitOnSeq pat b := by
  have hlt : b.length < s.length := splitFirst_length_lt hpat h
  show splitSeqAux pat (s.length + 1) s = a :: splitSeqAux pat (b.length + 1) b
  have h1 : splitSeqAux pat (s.length + 1) s = a :: splitSeqAux pat s.length b := by
    simp only [splitSeqAux, h]
  rw [h1, splitSeqAux_congr hpat s.length (b.length + 1) b (by omega) (by omega)]

theorem splitOnSeq_single {pat s : Bytes} (h : splitFirst pat s = none) :
    splitOnSeq pat s = [s] := by
  show splitSeqAux pat (s.length + 1) s = [s]
  simp only [splitSeqAux, h]

theorem splitFirst_crlf_skip {l : Bytes} (s : Bytes) (h : (13 : Nat) ∉ l) :
    splitFirst crlfB (l ++ s) =
      (splitFirst crlfB s).map (fun p => (l ++ p.1, p.2)) := by
  show splitFirst ((13 : Nat) :: [10]) (l ++ s) = _
  exact splitFirst_skip s h

theorem splitFirst_crlf_none {s : Bytes} (h : (13 : Nat) ∉ s) :
    splitFirst crlfB s = none := by
  show splitFirst ((13 : Nat) :: [10]) s = none
  exact splitFirst_none_of_not_mem h

theorem splitOnSeq_crlf_join (lines : List Bytes)
    (h : ∀ l ∈ lines, (13 : Nat) ∉ l) (hne : lines ≠ []) :
    splitOnSeq crlfB (joinCRLF lines) = lines := by
  induction lines with
  | nil => exact absurd rfl hne
  | cons l rest ih =>
    have hl := h l (List.mem_cons_self l rest)
    cases rest with
    | nil =>
      show splitOnSeq crlfB l = [l]
      exact splitOnSeq_single (splitFirst_crlf_none hl)
    | cons l2 ls =>
      have hjoin : joinCRLF (l :: l2 :: ls) = l ++ crlfB ++ joinCRLF (l2 :: ls) := rfl
      have hsp : splitFirst crlfB (joinCRLF (l :: l2 :: ls)) =
          some (l, joinCRLF (l2 :: ls)) := by
        rw [hjoin, List.append_assoc]
        rw [splitFirst_crlf_skip _ hl, splitFirst_append_self]
        simp
      rw [splitOnSeq_cons (by simp [crlfB]) hsp,
        ih (fun x hx => h x (List.mem_cons_of_mem l hx)) (by simp)]

/-!
Lemmas about header-line parsing (`split(": ", 1)` and `key.lower()`)
and about decimal digit rendering and parsing.
-/

theorem splitFirst_colon {k : Bytes} (v : Bytes) (h : (58 : Nat) ∉ k) :
    splitFirst colonSpace (k ++ (colonSpace ++ v)) = some (k, v) := by
  have hskip : splitFirst ((58 : Nat) :: [32]) (k ++ (colonSpace ++ v)) =
      (splitFirst ((58 : Nat) :: [32]) (colonSpace ++ v)).map
        (fun p => (k ++ p.1, p.2)) := splitFirst_skip _ h
  show splitFirst ((58 : Nat) :: [32]) (k ++ (colonSpace ++ v)) = some (k, v)
  rw [hskip]
  have : splitFirst colonSpace (colonSpace ++ v) = some ([], v) :=
    splitFirst_append_self colonSpace v
  rw [show ((58 : Nat) :: [32]) = colonSpace from rfl, this]
  simp

theorem parseHeaders_cons {k : Bytes} (v : Bytes) (rest : List Bytes)
    (h : (58 : Nat) ∉ k) :
    parseHeaders ((k ++ (colonSpace ++ v)) :: rest) =
      (parseHeaders rest).map (fun d => (lowerB k, v) :: d) := by
  simp only [parseHeaders, splitFirst_colon v h]

theorem natDigitsAux_mem {fuel n c : Nat} (h : c ∈ natDigitsAux fuel n) :
    48 ≤ c ∧ c ≤ 57 := by
  induction fuel generalizing n with
  | zero => simp [natDigitsAux] at h
  | succ fa ih =>
    simp only [natDigitsAux] at h
    by_cases hn : n < 10
    · rw [if_pos hn] at h
      simp at h
      omega
    · rw [if_neg hn] at h
      rcases List.mem_append.mp h with h1 | h2
      · exact ih h1
      · simp at h2
        have := Nat.mod_lt n (show 0 < 10 by omega)
        omega

theorem natDigits_mem {n c : Nat} (h : c ∈ natDigits n) : 48 ≤ c ∧ c ≤ 57 :=
  natDigitsAux_mem h

theorem natDigits_no13 (n : Nat) : (13 : Nat) ∉ natDigits n := by
  intro h; have := natDigits_mem h; omega

theorem natDigits_no58 (n : Nat) : (58 : Nat) ∉ natDigits n := by
  intro h; have := natDigits_mem h; omega

theorem natDigits_ne_nil (n : Nat) : natDigits n ≠ [] := by
  show natDigitsAux (n + 1) n ≠ []
  simp only [natDigitsAux]
  by_cases hn : n < 10
  · rw [if_pos hn]; simp
  · rw [if_neg hn]; simp

theorem parseDigitsAux_append (xs ys : Bytes) (acc : Nat) :
    parseDigitsAux acc (xs ++ ys) =
      match parseDigitsAux acc xs with
      | some a => parseDigitsAux a ys
      | none => none := by
  induction xs generalizing acc with
  | nil => rfl
  | cons c cs ih =>
    show parseDigitsAux acc (c :: (cs ++ ys)) = _
    simp only [parseDigitsAux]
    by_cases hc : 48 ≤ c ∧ c ≤ 57
    · simp only [if_pos hc]
      exact ih _
    · simp only [if_neg hc]

theorem parseDigitsAux_natDigitsAux :
    ∀ fuel n acc, n < fuel →
      parseDigitsAux acc (natDigitsAux fuel n) =
        some (acc * 10 ^ (natDigitsAux fuel n).length + n) := by
  intro fuel
  induction fuel with
  | zero => intro n acc h; omega
  | succ fa ih =>
    intro n acc h
    by_cases hn : n < 10
    · simp only [natDigitsAux, if_pos hn, parseDigitsAux]
      rw [if_pos (by omega : 48 ≤ 48 + n ∧ 48 + n ≤ 57)]
      simp only [parseDigitsAux, List.length_cons, List.length_nil, pow_one]
      congr 1
      omega
    · simp only [natDigitsAux, if_neg hn]
      rw [parseDigitsAux_append]
      have hdiv : n / 10 < fa := by omega
      rw [ih (n / 10) acc hdiv]
      simp only [parseDigitsAux]
      rw [if_pos (by omega : 48 ≤ 48 + n % 10 ∧ 48 + n % 10 ≤ 57)]
      simp only [parseDigitsAux, List.length_append, List.length_cons,
        List.length_nil, pow_succ]
      rw [← mul_assoc]
      congr 1
      generalize acc * 10 ^ (natDigitsAux fa (n / 10)).length = Q
      omega

theorem parseDigits_natDigits (n : Nat) : parseDigits (natDigits n) = some n := by
  obtain ⟨c, cs, hc⟩ : ∃ c cs, natDigits n = c :: cs := by
    cases h : natDigits n with
    | nil => exact absurd h (natDigits_ne_nil n)
    | cons c cs => exact ⟨c, cs, rfl⟩
  have hp := parseDigitsAux_natDigitsAux (n + 1) n 0 (by omega)
  rw [show natDigitsAux (n + 1) n = natDigits n from rfl] at hp
  rw [hc] at hp ⊢
  show parseDigitsAux 0 (c :: cs) = some n
  rw [hp]
  simp

theorem parsePyInt_natDigits (n : Nat) : parsePyInt (natDigits n) = some (n : Int) := by
  obtain ⟨c, cs, hc⟩ : ∃ c cs, natDigits n = c :: cs := by
    cases h : natDigits n with
    | nil => exact absurd h (natDigits_ne_nil n)
    | cons c cs => exact ⟨c, cs, rfl⟩
  have hmem : 48 ≤ c ∧ c ≤ 57 := natDigits_mem (by rw [hc]; exact List.mem_cons_self c cs)
  have hpd := parseDigits_natDigits n
  rw [hc] at hpd ⊢
  simp only [parsePyInt]
  rw [if_neg (by omega : ¬c = 45), if_neg (by omega : ¬c = 43), hpd]
  rfl

theorem readUntilTerm_cons {c : Bytes} (cs : List Bytes)
    (h : containsSeq headerTerm c = true) :
    readUntilTerm (c :: cs) [] = some (c, cs) := by
  rw [readUntilTerm.eq_def]
  rw [if_neg (by decide)]
  show readUntilTerm cs ([] ++ c) = some (c, cs)
  rw [List.nil_append, readUntilTerm.eq_def, if_pos h]

theorem readBody_exact (body : Bytes) (chunks : List Bytes) :
    readBody (body.length : Int) chunks body = some (body, chunks) := by
  rw [readBody.eq_def, if_neg (by omega)]

/-- Decoding a well-formed frame delivered as its own chunk: the
header lines are recovered, the headers fold to `hd`, and a
`Content-Length` equal to the body's length makes the body loop stop
at once, leaving the remaining chunks untouched. -/
theorem decodeRaw_mkFrame {sl : Bytes} {hls : List Bytes}
    {hd : List (Bytes × Bytes)} (body : Bytes) (rest : List Bytes)
    (hwf : ∀ l ∈ sl :: hls, l ≠ [] ∧ (13 : Nat) ∉ l)
    (hph : parseHeaders hls = some hd)
    (hcl : contentLengthOf hd = some (body.length : Int)) :
    decodeRaw (mkFrame (sl :: hls) body :: rest) =
      some ({ statusLine := sl, headers := hd, body := body }, rest) := by
  have hterm : splitFirst headerTerm (mkFrame (sl :: hls) body) =
      some (joinCRLF (sl :: hls), body) := splitFirst_term_join (sl :: hls) body hwf
  have hcont : containsSeq headerTerm (mkFrame (sl :: hls) body) = true := by
    rw [containsSeq, hterm]; rfl
  simp only [decodeRaw, readUntilTerm_cons rest hcont, hterm,
    splitOnSeq_crlf_join (sl :: hls) (fun l hl => (hwf l hl).2)
      (by simp : sl :: hls ≠ []),
    hph, hcl, readBody_exact]
  rfl

/-!
Each receive-loop iteration consumes at least one chunk, so the loop's
fuel `chunks.length + 1` never runs out; the fuel value is otherwise
irrelevant.
-/

theorem readBody_chunks_le {clen : Int} :
    ∀ {chunks body b rest}, readBody clen chunks body = some (b, rest) →
      rest.length ≤ chunks.length := by
  intro chunks
  induction chunks with
  | nil =>
    intro body b rest h
    rw [readBody.eq_def] at h
    by_cases hc : (body.length : Int) < clen
    · rw [if_pos hc] at h; simp at h
    · rw [if_neg hc] at h
      injection h with h1
      injection h1 with h2 h3
      simp [← h3]
  | cons c cs ih =>
    intro body b rest h
    rw [readBody.eq_def] at h
    by_cases hc : (body.length : Int) < clen
    · rw [if_pos hc] at h
      have := ih h
      simp
      omega
    · rw [if_neg hc] at h
      injection h with h1
      injection h1 with h2 h3
      simp [← h3]

theorem readBody_structure {clen : Int} :
    ∀ {chunks body b rest}, readBody clen chunks body = some (b, rest) →
      ∃ pre, chunks = pre ++ rest ∧ b = body ++ pre.flatten := by
  intro chunks
  induction chunks with
  | nil =>
    intro body b rest h
    rw [readBody.eq_def] at h
    by_cases hc : (body.length : Int) < clen
    · rw [if_pos hc] at h; simp at h
    · rw [if_neg hc] at h
      injection h with h1
      injection h1 with h2 h3
      exact ⟨[], by simp [← h2, ← h3]⟩
  | cons c cs ih =>
    intro body b rest h
    rw [readBody.eq_def] at h
    by_cases hc : (body.length : Int) < clen
    · rw [if_pos hc] at h
      obtain ⟨pre, hpre, hb⟩ := ih h
      exact ⟨c :: pre, by simp [hpre], by simp [hb]⟩
    · rw [if_neg hc] at h
      injection h with h1
      injection h1 with h2 h3
      exact ⟨[], by simp [← h2, ← h3]⟩

theorem readUntilTerm_chunks_lt :
    ∀ {chunks : List Bytes} {data d rest}, containsSeq headerTerm data = false →
      readUntilTerm chunks data = some (d, rest) → rest.length < chunks.length := by
  intro chunks
  induction chunks with
  | nil =>
    intro data d rest hc h
    rw [readUntilTerm.eq_def, hc] at h
    simp at h
  | cons c cs ih =>
    intro data d rest hc h
    rw [readUntilTerm.eq_def, hc] at h
    simp only [Bool.false_eq_true, if_false] at h
    by_cases hc2 : containsSeq headerTerm (data ++ c) = true
    · rw [readUntilTerm.eq_def, hc2, if_pos rfl] at h
      injection h with h1
      injection h1 with h2 h3
      simp [← h3]
    · have := ih (Bool.not_eq_true _ ▸ (by simp [hc2]) : containsSeq headerTerm (data ++ c) = false) h
      simp
      omega

theorem decodeRaw_chunks_lt {chunks : List Bytes} {rf rest}
    (h : decodeRaw chunks = some (rf, rest)) : rest.length < chunks.length := by
  rw [decodeRaw] at h
  cases hrt : readUntilTerm chunks [] with
  | none => rw [hrt] at h; simp at h
  | some p =>
    rw [hrt] at h
    obtain ⟨data, rest1⟩ := p
    dsimp only at h
    have h1 : rest1.length < chunks.length :=
      readUntilTerm_chunks_lt (by decide) hrt
    cases hsp : splitFirst headerTerm data with
    | none => rw [hsp] at h; simp at h
    | some q =>
      rw [hsp] at h
      obtain ⟨hdr, body0⟩ := q
      dsimp only at h
      cases hso : splitOnSeq crlfB hdr with
      | nil => rw [hso] at h; simp at h
      | cons statusLine headerLines =>
        rw [hso] at h
        dsimp only at h
        cases hp : parseHeaders headerLines with
        | none => rw [hp] at h; simp at h
        | some headers =>
          rw [hp] at h
          dsimp only at h
          cases hcl : contentLengthOf headers with
          | none => rw [hcl] at h; simp at h
          | some clen =>
            rw [hcl] at h
            dsimp only at h
            cases hrb : readBody clen rest1 body0 with
            | none => rw [hrb] at h; simp at h
            | some pr =>
              rw [hrb] at h
              obtain ⟨b2, rest2⟩ := pr
              simp only [Option.map] at h
              have h2 : rest2.length ≤ rest1.length := readBody_chunks_le hrb
              injection h with h3
              injection h3 with h4 h5
              rw [← h5]
              omega

theorem receiveLoopAux_congr :
    ∀ f f' chunks (q : List (Int × Bytes)) (p : List Bytes),
      chunks.length < f → chunks.length < f' →
      receiveLoopAux f chunks q p = receiveLoopAux f' chunks q p := by
  intro f
  induction f with
  | zero => intro f' chunks q p h; omega
  | succ fa ih =>
    intro f' chunks q p hf hf'
    cases f' with
    | zero => omega
    | succ fb =>
      show receiveLoopAux (fa + 1) chunks q p = receiveLoopAux (fb + 1) chunks q p
      cases hdec : decodeRaw chunks with
      | none => simp only [receiveLoopAux, hdec]
      | some pr =>
        obtain ⟨rf, rest⟩ := pr
        have hlt := decodeRaw_chunks_lt hdec
        simp only [receiveLoopAux, hdec]
        cases statusOf rf.statusLine with
        | none => rfl
        | some st =>
          dsimp only
          cases routeFrame st rf.headers rf.body with
          | toPush b => exact ih fb rest q (p ++ [b]) (by omega) (by omega)
          | toQueue s b => exact ih fb rest (q ++ [(s, b)]) p (by omega) (by omega)
          | dropped => exact ih fb rest q p (by omega) (by omega)

theorem receiveLoop_eq_none {chunks : List Bytes} {q p} (h : decodeRaw chunks = none) :
    receiveLoop chunks q p = (q, p) := by
  show receiveLoopAux (chunks.length + 1) chunks q p = (q, p)
  simp only [receiveLoopAux, h]

theorem receiveLoop_nil (q : List (Int × Bytes)) (p : List Bytes) :
    receiveLoop [] q p = (q, p) := receiveLoop_eq_none rfl

theorem receiveLoop_eq_badStatus {chunks : List Bytes} {q p rf rest}
    (h1 : decodeRaw chunks = some (rf, rest))
    (h2 : statusOf rf.statusLine = none) :
    receiveLoop chunks q p = (q, p) := by
  show receiveLoopAux (chunks.length + 1) chunks q p = (q, p)
  simp only [receiveLoopAux, h1, h2]

theorem receiveLoop_step {chunks : List Bytes} {q p rf rest st}
    (h1 : decodeRaw chunks = some (rf, rest))
    (h2 : statusOf rf.statusLine = some st) :
    receiveLoop chunks q p =
      match routeFrame st rf.headers rf.body with
      | .toPush b => receiveLoop rest q (p ++ [b])
      | .toQueue s b => receiveLoop rest (q ++ [(s, b)]) p
      | .dropped => receiveLoop rest q p := by
  have hlt := decodeRaw_chunks_lt h1
  show receiveLoopAux (chunks.length + 1) chunks q p = _
  simp only [receiveLoopAux, h1, h2]
  cases routeFrame st rf.headers rf.body with
  | toPush b =>
    exact receiveLoopAux_congr chunks.length (rest.length + 1) rest q (p ++ [b])
      (by omega) (by omega)
  | toQueue s b =>
    exact receiveLoopAux_congr chunks.length (rest.length + 1) rest (q ++ [(s, b)]) p
      (by omega) (by omega)
  | dropped =>
    exact receiveLoopAux_congr chunks.length (rest.length + 1) rest q p
      (by omega) (by omega)

theorem clLine_wf (body : Bytes) :
    clLine body ≠ [] ∧ (13 : Nat) ∉ clLine body := by
  constructor
  · have hlen : 0 < (clLine body).length := by
      simp [clLine, List.length_append]
      exact Or.inl (by decide)
    exact List.ne_nil_of_length_pos hlen
  · intro h
    rcases List.mem_append.mp h with h1 | h2
    · revert h1; decide
    · rcases List.mem_append.mp h2 with h3 | h4
      · revert h3; decide
      · exact natDigits_no13 _ h4

theorem parseHeaders_clLine (body : Bytes) :
    parseHeaders [clLine body] =
      some [(strB "content-length", natDigits body.length)] := by
  have h := parseHeaders_cons (natDigits body.length) ([] : List Bytes)
    (by decide : (58 : Nat) ∉ strB "Content-Length")
  rw [show clLine body =
    strB "Content-Length" ++ (colonSpace ++ natDigits body.length) from rfl, h]
  rw [show lowerB (strB "Content-Length") = strB "content-length" from by decide]
  rfl

theorem contentLengthOf_single (n : Nat) :
    contentLengthOf [(strB "content-length", natDigits n)] = some (n : Int) := by
  have h1 : lookupLast (strB "content-length")
      [(strB "content-length", natDigits n)] = some (natDigits n) := by
    simp only [lookupLast]
    simp
  rw [contentLengthOf, h1]
  exact parsePyInt_natDigits n

theorem contentLengthOf_pair (k v : Bytes) (n : Nat) :
    contentLengthOf [(k, v), (strB "content-length", natDigits n)] =
      some (n : Int) := by
  have inner : lookupLast (strB "content-length")
      [(strB "content-length", natDigits n)] = some (natDigits n) := by
    simp only [lookupLast]
    simp
  have h1 : lookupLast (strB "content-length")
      [(k, v), (strB "content-length", natDigits n)] = some (natDigits n) := by
    rw [show lookupLast (strB "content-length")
        [(k, v), (strB "content-length", natDigits n)] =
      (match lookupLast (strB "content-length")
          [(strB "content-length", natDigits n)] with
        | some r => some r
        | none => if k = strB "content-length" then some v else none) from rfl]
    rw [inner]
  rw [contentLengthOf, h1]
  exact parsePyInt_natDigits n

theorem frameType_single (n : Nat) :
    frameType [(strB "content-length", natDigits n)] = strB "response" := by
  have h1 : lookupLast (strB "type") [(strB "content-length", natDigits n)] =
      none := by
    simp only [lookupLast]
    rw [if_neg (by decide)]
  rw [frameType, h1]
  rfl

theorem frameType_pair_type {tk : Bytes} (hk : tk = strB "type") (n : Nat) :
    frameType [(tk, strB "message"), (strB "content-length", natDigits n)] =
      strB "message" := by
  have hrest : lookupLast (strB "type") [(strB "content-length", natDigits n)] =
      none := by
    simp only [lookupLast]
    rw [if_neg (by decide)]
  have h1 : lookupLast (strB "type")
      [(tk, strB "message"), (strB "content-length", natDigits n)] =
      some (strB "message") := by
    rw [show lookupLast (strB "type")
        [(tk, strB "message"), (strB "content-length", natDigits n)] =
      (match lookupLast (strB "type") [(strB "content-length", natDigits n)] with
        | some r => some r
        | none => if tk = strB "type" then some (strB "message") else none)
      from rfl]
    rw [hrest]
    show (if tk = strB "type" then some (strB "message") else none) = _
    rw [if_pos hk]
  rw [frameType, h1]
  rfl

theorem routeFrame_toQueue {st : Int} {hd : List (Bytes × Bytes)} (body : Bytes)
    (hst : st = 200 ∨ st = 201) (hft : frameType hd ≠ strB "message") :
    routeFrame st hd body = .toQueue st body := by
  rw [routeFrame, if_pos hst, if_neg hft]

theorem routeFrame_toPush {st : Int} {hd : List (Bytes × Bytes)} (body : Bytes)
    (hst : st = 200 ∨ st = 201) (hft : frameType hd = strB "message") :
    routeFrame st hd body = .toPush body := by
  rw [routeFrame, if_pos hst, if_pos hft]

theorem decodeRaw_mkResp (body : Bytes) (rest : List Bytes) :
    decodeRaw (mkResp body :: rest) =
      some ({ statusLine := strB "HTTP/1.1 200 OK",
              headers := [(strB "content-length", natDigits body.length)],
              body := body }, rest) := by
  apply decodeRaw_mkFrame
  · intro l hl
    rcases List.mem_cons.mp hl with rfl | hl2
    · exact ⟨by decide, by decide⟩
    · rcases List.mem_cons.mp hl2 with rfl | hl3
      · exact clLine_wf body
      · exact absurd hl3 (List.not_mem_nil l)
  · exact parseHeaders_clLine body
  · exact contentLengthOf_single body.length

theorem decodeRaw_mkPushNamed (nm body : Bytes) (rest : List Bytes)
    (h13 : (13 : Nat) ∉ nm) (h58 : (58 : Nat) ∉ nm) :
    decodeRaw (mkPushNamed nm body :: rest) =
      some ({ statusLine := strB "HTTP/1.1 200 OK",
              headers := [(lowerB nm, strB "message"),
                          (strB "content-length", natDigits body.length)],
              body := body }, rest) := by
  apply decodeRaw_mkFrame
  · intro l hl
    rcases List.mem_cons.mp hl with rfl | hl2
    · exact ⟨by decide, by decide⟩
    · rcases List.mem_cons.mp hl2 with rfl | hl3
      · constructor
        · have hlen : 0 < (nm ++ (colonSpace ++ strB "message")).length := by
            simp [List.length_append]
            exact Or.inr (Or.inl (by decide))
          exact List.ne_nil_of_length_pos hlen
        · intro h
          rcases List.mem_append.mp h with h1 | h2
          · exact h13 h1
          · revert h2; decide
      · rcases List.mem_cons.mp hl3 with rfl | hl4
        · exact clLine_wf body
        · exact absurd hl4 (List.not_mem_nil l)
  · rw [parseHeaders_cons (strB "message") [clLine body] h58,
      parseHeaders_clLine body]
    rfl
  · exact contentLengthOf_pair (lowerB nm) (strB "message") body.length

theorem receiveLoop_mkResp (body : Bytes) (rest : List Bytes)
    (q : List (Int × Bytes)) (p : List Bytes) :
    receiveLoop (mkResp body :: rest) q p =
      receiveLoop rest (q ++ [(200, body)]) p := by
  have hroute : routeFrame 200
      [(strB "content-length", natDigits body.length)] body =
      .toQueue 200 body :=
    routeFrame_toQueue body (Or.inl rfl) (by rw [frameType_single]; decide)
  rw [receiveLoop_step (decodeRaw_mkResp body rest)
    (by decide : statusOf (strB "HTTP/1.1 200 OK") = some 200), hroute]

theorem receiveLoop_mkPushNamed (nm body : Bytes) (rest : List Bytes)
    (q : List (Int × Bytes)) (p : List Bytes)
    (hlow : lowerB nm = strB "type") :
    receiveLoop (mkPushNamed nm body :: rest) q p =
      receiveLoop rest q (p ++ [body]) := by
  have h13 : (13 : Nat) ∉ nm := by
    intro hm
    have h2 : lowerByte 13 ∈ lowerB nm := List.mem_map_of_mem lowerByte hm
    rw [hlow] at h2
    revert h2; decide
  have h58 : (58 : Nat) ∉ nm := by
    intro hm
    have h2 : lowerByte 58 ∈ lowerB nm := List.mem_map_of_mem lowerByte hm
    rw [hlow] at h2
    revert h2; decide
  have hroute : routeFrame 200
      [(lowerB nm, strB "message"),
       (strB "content-length", natDigits body.length)] body =
      .toPush body :=
    routeFrame_toPush body (Or.inl rfl) (frameType_pair_type hlow body.length)
  rw [receiveLoop_step (decodeRaw_mkPushNamed nm body rest h13 h58)
    (by decide : statusOf (strB "HTTP/1.1 200 OK") = some 200), hroute]

/-- C3: for every method, path and body — the body an arbitrary byte
sequence, including ones containing `"\r\n\r\n"` — encoding a request
with `send_request`'s framing and decoding it with the receive loop's
frame decoder reproduces the body bytes exactly: the decoder delimits
the body by the declared `Content-Length` alone, never by scanning the
body. -/
theorem c3_encode_decode_roundtrip (method url body : Bytes)
    (hm : (13 : Nat) ∉ method) (hu : (13 : Nat) ∉ url) :
    decodeRaw [send_request_bytes method url body] =
      some ({ statusLine := method ++ [32] ++ url ++ strB " HTTP/1.1",
              headers := [(strB "content-length", natDigits body.length)],
              body := body }, []) := by
  have henc : send_request_bytes method url body =
      mkFrame [method ++ [32] ++ url ++ strB " HTTP/1.1", clLine body] body := by
    simp [send_request_bytes, mkFrame, joinCRLF, clLine, headerTerm, crlfB,
      List.append_assoc]
  rw [henc]
  apply decodeRaw_mkFrame
  · intro l hl
    rcases List.mem_cons.mp hl with rfl | hl2
    · constructor
      · have hlen : 0 < (method ++ [32] ++ url ++ strB " HTTP/1.1").length := by
          simp [List.length_append]
        exact List.ne_nil_of_length_pos hlen
      · intro h
        rcases List.mem_append.mp h with h1 | h2
        · rcases List.mem_append.mp h1 with h3 | h4
          · rcases List.mem_append.mp h3 with h5 | h6
            · exact hm h5
            · revert h6; decide
          · exact hu h4
        · revert h2; decide
    · rcases List.mem_cons.mp hl2 with rfl | hl3
      · exact clLine_wf body
      · exact absurd hl3 (List.not_mem_nil l)
  · exact parseHeaders_clLine body
  · exact contentLengthOf_single body.length

/-- Witness for C3 at a concrete request whose body contains the
header terminator `"\r\n\r\n"` as payload bytes. -/
theorem c3_roundtrip_witness :
    decodeRaw [send_request_bytes (strB "POST") (strB "/upload")
        (strB "a\r\n\r\nb")] =
      some ({ statusLine := strB "POST" ++ [32] ++ strB "/upload" ++
                strB " HTTP/1.1",
              headers := [(strB "content-length",
                natDigits (strB "a\r\n\r\nb").length)],
              body := strB "a\r\n\r\nb" }, []) :=
  c3_encode_decode_roundtrip (strB "POST") (strB "/upload")
    (strB "a\r\n\r\nb") (by decide) (by decide)

/-- C4 (counterexample): a frame carrying `Type: message` but a non-2xx
status is not routed to the push handler — the status filter of
lines 111-115 discards it entirely, so the claim as stated fails on
this frame. -/
theorem c4_counterexample_non2xx_push :
    receiveLoop [mkFrame [strB "HTTP/1.1 404 Not Found",
        strB "Type" ++ (colonSpace ++ strB "message"),
        clLine (strB "\x7b\"chat_id\":3\x7d")]
      (strB "\x7b\"chat_id\":3\x7d")] [] [] = ([], []) := by decide

/-- C4 (amended): for every frame with status 200/201 whose Type header
— under any casing of its name — has value `message`, and any push and
response bodies, the push frame is handed to the push handler and never
enqueued on the response queue, and a pending request's blocking wait is
satisfied only by the next Response frame. -/
theorem c4_push_routed_not_consumed (nm pbody rbody : Bytes)
    (hlow : lowerB nm = strB "type")
    (q : List (Int × Bytes)) (p : List Bytes) :
    receiveLoop [mkPushNamed nm pbody] q p = (q, p ++ [pbody]) ∧
    receiveLoop [mkPushNamed nm pbody, mkResp rbody] q p =
      (q ++ [(200, rbody)], p ++ [pbody]) := by
  constructor
  · rw [receiveLoop_mkPushNamed nm pbody [] q p hlow, receiveLoop_nil]
  · rw [receiveLoop_mkPushNamed nm pbody [mkResp rbody] q p hlow,
      receiveLoop_mkResp rbody [] q (p ++ [pbody]), receiveLoop_nil]

/-- Witness for the amended C4 at an upper-case `Type` header name. -/
theorem c4_push_witness :
    receiveLoop [mkPushNamed (strB "TYPE") (strB "\x7b\"chat_id\":3\x7d")] [] [] =
      ([], [strB "\x7b\"chat_id\":3\x7d"]) ∧
    receiveLoop [mkPushNamed (strB "TYPE") (strB "\x7b\"chat_id\":3\x7d"),
        mkResp (strB "ok")] [] [] =
      ([(200, strB "ok")], [strB "\x7b\"chat_id\":3\x7d"]) := by
  have h := c4_push_routed_not_consumed (strB "TYPE") (strB "\x7b\"chat_id\":3\x7d")
    (strB "ok") (by decide) [] []
  simpa using h

/-- C9: a push whose body is not valid JSON is logged and dropped by
`handle_incoming_message`'s catch-all `except`, and — whatever the push
body is — handing a push to the handler neither terminates the receive
loop nor prevents the decoding and correlation of the next frame. -/
theorem c9_malformed_push_dropped (body rbody : Bytes)
    (q : List (Int × Bytes)) (p : List Bytes)
    (hmal : jsonParse body = none) :
    handle_incoming_message body = .errorLogged ∧
    receiveLoop [mkPush body, mkResp rbody] q p =
      (q ++ [(200, rbody)], p ++ [body]) := by
  constructor
  · simp only [handle_incoming_message, hmal]
  · rw [show mkPush body = mkPushNamed (strB "Type") body from rfl]
    rw [receiveLoop_mkPushNamed (strB "Type") body [mkResp rbody] q p (by decide),
      receiveLoop_mkResp rbody [] q (p ++ [body]), receiveLoop_nil]

/-- Witness for C9 at a concrete malformed push body. -/
theorem c9_witness :
    handle_incoming_message (strB "oops") = .errorLogged ∧
    receiveLoop [mkPush (strB "oops"), mkResp (strB "x")] [] [] =
      ([(200, strB "x")], [strB "oops"]) := by
  have h := c9_malformed_push_dropped (strB "oops") (strB "x") [] [] (by decide)
  simpa using h

/-- C5: the receive loop's decoder never truncates the body it buffers
to `Content-Length` — whatever `readBody` returns is everything it
received after the header terminator — and on a concrete input where
two frames arrive in one socket read, the first frame's delivered body
contains the entire second frame, which is lost to decoding. -/
theorem c5_decoder_over_read :
    (∀ (clen : Int) (chunks : List Bytes) (body b : Bytes)
        (rest : List Bytes),
        readBody clen chunks body = some (b, rest) →
        ∃ pre, chunks = pre ++ rest ∧ b = body ++ pre.flatten) ∧
    receiveLoop [mkResp (strB "AB") ++ mkResp (strB "CD")] [] [] =
      ([(200, strB "AB" ++ mkResp (strB "CD"))], []) := by
  constructor
  · intro clen chunks body b rest h
    exact readBody_structure h
  · decide

/-- Witness for C5's universally quantified part. -/
theorem c5_witness :
    ∃ pre, [[(65 : Nat)]] = pre ++ ([] : List Bytes) ∧
      [(65 : Nat)] = [] ++ pre.flatten :=
  c5_decoder_over_read.1 1 [[65]] [] [65] [] (by decide)

/-- C6: appending a message to a chat's history and loading that chat
returns the previous sequence with the message appended last, for any
previously persisted state; loading a chat with no log yields the empty
sequence. -/
theorem c6_save_load_append {α : Type} (fs : ChatStore α) (chatId : Nat)
    (m : α) :
    load_chat_history (save_message fs chatId m) chatId =
      load_chat_history fs chatId ++ [m] ∧
    (fs chatId = none → load_chat_history fs chatId = []) := by
  constructor
  · simp [save_message, load_chat_history]
  · intro h
    simp [load_chat_history, h]

/-- Witness for C6 on the empty store. -/
theorem c6_witness :
    load_chat_history (save_message (fun _ => none : ChatStore Nat) 3 7) 3 =
      [7] ∧
    load_chat_history (fun _ => none : ChatStore Nat) 3 = [] := by
  have h := c6_save_load_append (fun _ => none : ChatStore Nat) 3 7
  exact ⟨by rw [h.1, h.2 rfl]; simp, h.2 rfl⟩

/-- C10: `create_new_chat` appends the current user's id to the
caller's very `members` list when absent from it — the mutation is
visible through the heap after the call, other lists are untouched, and
the session fields are not modified; when the id is already a member
nothing changes; when `members` is omitted a fresh list holding only
the user's id is used and the state is untouched. -/
theorem c10_create_chat_mutates_members {α : Type} [DecidableEq α]
    (st : ChatClientState α) (r : Nat) :
    (st.user_id ∉ st.heap r →
      (create_new_chat_members st (some r)).1.heap r =
          st.heap r ++ [st.user_id] ∧
        (create_new_chat_members st (some r)).2 =
          st.heap r ++ [st.user_id] ∧
        (∀ r2, r2 ≠ r →
          (create_new_chat_members st (some r)).1.heap r2 = st.heap r2) ∧
        (create_new_chat_members st (some r)).1.user_id = st.user_id ∧
        (create_new_chat_members st (some r)).1.user_login =
          st.user_login ∧
        (create_new_chat_members st (some r)).1.username = st.username) ∧
    (st.user_id ∈ st.heap r →
      create_new_chat_members st (some r) = (st, st.heap r)) ∧
    create_new_chat_members st none = (st, [st.user_id]) := by
  refine ⟨?_, ?_, ?_⟩
  · intro h
    have hstep : create_new_chat_members st (some r) =
        ({ st with heap := fun r2 =>
            if r2 = r then st.heap r ++ [st.user_id] else st.heap r2 },
         st.heap r ++ [st.user_id]) := by
      simp only [create_new_chat_members, if_neg h]
    rw [hstep]
    refine ⟨by simp, rfl, ?_, rfl, rfl, rfl⟩
    intro r2 hr2
    simp [if_neg hr2]
  · intro h
    simp only [create_new_chat_members, if_pos h]
  · simp [create_new_chat_members]

/-- Witness for C10: the caller's list object visibly gains the user
id. -/
theorem c10_witness :
    (create_new_chat_members chatState0 (some 0)).1.heap 0 = [1, 2, 7] := by
  have h := (c10_create_chat_mutates_members chatState0 0).1 (by decide)
  rw [h.1]
  decide

/-- C8: whenever the first decoded frame's status line has no second
space-delimited token that parses as an integer, the receive loop
treats the frame as a protocol error and terminates, decoding no
further frames on the connection and delivering nothing. -/
theorem c8_malformed_status_terminates (chunks : List Bytes)
    (q : List (Int × Bytes)) (p : List Bytes)
    (h : ∀ rf rest, decodeRaw chunks = some (rf, rest) →
      ∀ tok, (splitOnByte 32 rf.statusLine).get? 1 = some tok →
        parsePyInt tok = none) :
    receiveLoop chunks q p = (q, p) := by
  cases hdec : decodeRaw chunks with
  | none => exact receiveLoop_eq_none hdec
  | some pr =>
    obtain ⟨rf, rest⟩ := pr
    apply receiveLoop_eq_badStatus hdec
    rw [statusOf.eq_def]
    cases hg : (splitOnByte 32 rf.statusLine).get? 1 with
    | none => rfl
    | some tok => exact h rf rest hdec tok hg

/-- Witness for C8: a frame whose status token is `"abc"` stops the
loop even though a valid 200 frame follows it. -/
theorem c8_witness :
    receiveLoop [mkFrame [strB "HTTP/1.1 abc OK", clLine []] [],
      mkResp (strB "ok")] [] [] = ([], []) := by
  apply c8_malformed_status_terminates
  intro rf rest hdec tok hg
  rw [show decodeRaw [mkFrame [strB "HTTP/1.1 abc OK", clLine []] [],
      mkResp (strB "ok")] =
    some ({ statusLine := strB "HTTP/1.1 abc OK",
            headers := [(strB "content-length", natDigits 0)],
            body := [] }, [mkResp (strB "ok")]) from by decide] at hdec
  injection hdec with h1
  injection h1 with h2 h3
  subst h2
  dsimp only at hg
  rw [show (splitOnByte 32 (strB "HTTP/1.1 abc OK")).get? 1 =
    some (strB "abc") from by decide] at hg
  injection hg with h4
  subst h4
  decide

/-- C1 (code bug): a `download` answered by a 404 frame with body
`{"message":"not found"}` never returns — the receive loop's status
filter (only 200/201 frames are enqueued) silently discards the reply,
so the caller blocks on the response queue instead of receiving the
typed absence with the server's message; the loop itself continues
and still delivers a later 200 frame. -/
theorem c1_download_error_reply_never_delivered :
    download [mkFrame [strB "HTTP/1.1 404 Not Found",
        clLine (strB "\x7b\"message\":\"not found\"\x7d")]
      (strB "\x7b\"message\":\"not found\"\x7d")] = .blocked ∧
    receiveLoop [mkFrame [strB "HTTP/1.1 404 Not Found",
        clLine (strB "\x7b\"message\":\"not found\"\x7d")]
      (strB "\x7b\"message\":\"not found\"\x7d"), mkResp (strB "ok")] [] [] =
      ([(200, strB "ok")], []) :=
  ⟨by decide, by decide⟩

/-- C2 (code bug): the reply the server sends to a request is not
returned by the blocking wait when its status is not 200/201 — the
500 frame is dropped by the receive loop, the queue stays empty, and
`response_queue.get` never returns. -/
theorem c2_non2xx_reply_not_correlated :
    receiveLoop [mkFrame [strB "HTTP/1.1 500 Internal Server Error",
        clLine (strB "\x7b\"message\":\"boom\"\x7d")]
      (strB "\x7b\"message\":\"boom\"\x7d")] [] [] = ([], []) ∧
    awaitResponse (receiveLoop [mkFrame
        [strB "HTTP/1.1 500 Internal Server Error",
        clLine (strB "\x7b\"message\":\"boom\"\x7d")]
      (strB "\x7b\"message\":\"boom\"\x7d")] [] []).1 = none :=
  ⟨by decide, by decide⟩

/-- C7: a 200 login reply with body `{"id":7,"username":"Bob"}` sets
the session's user id to 7, its display name to `"Bob"` and returns
`"Bob"`; but (code bug) a 401 reply never reaches `login` at all — the
receive loop drops non-2xx frames, so `login` blocks instead of
returning `None` with the session untouched. -/
theorem c7_login_success_failure_blocked :
    login session0 (strB "bob")
      [mkResp (strB "\x7b\"id\":7,\"username\":\"Bob\"\x7d")] =
      .done { user_id := some (.pnum 7), user_login := some (strB "bob"),
              username := some (.pstr (strB "Bob")) }
        (some (.pstr (strB "Bob"))) ∧
    login session0 (strB "bob")
      [mkFrame [strB "HTTP/1.1 401 Unauthorized",
          clLine (strB "\x7b\"message\":\"bad credentials\"\x7d")]
        (strB "\x7b\"message\":\"bad credentials\"\x7d")] = .blocked :=
  ⟨by decide, by decide⟩
